import Mathlib

/-!
Verification of the FPL league combination analyzer
(`player_combination_analysis.py` and `webapp/app.py`).

The Python code manipulates dictionaries keyed by integer manager ids,
fetches squads through a retrying per-manager fetch, reconciles cache
coverage against the league member list, persists/loads a pickle cache,
and scans the roster mapping for player-combination matches.  Each of
those pieces is embedded below as an executable Lean function that
mirrors the source, and theorems about the embedding follow the
definitions.
-/

namespace FPL

/-! ### Python dict model

`manager_squads` and the fetch accumulator `all_squads` are Python dicts
keyed by manager id.  We model a dict as an association list in insertion
order without duplicate keys (a Python dict can never hold a key twice);
`dictInsert` is `d[k] = v` (replace in place if the key is present, append
otherwise), `dictGet` is `d.get(k)`, `dictKeys` is `list(d.keys())`, and
`dictUpdate` is `a.update(b)`. -/

abbrev Dict (α : Type) := List (Nat × α)

def dictKeys {α : Type} (d : Dict α) : List Nat :=
  d.map Prod.fst

def dictInsert {α : Type} : Dict α → Nat → α → Dict α
  | [], k, v => [(k, v)]
  | p :: d, k, v => if p.1 = k then (k, v) :: d else p :: dictInsert d k v

def dictGet {α : Type} : Dict α → Nat → Option α
  | [], _ => none
  | p :: d, k => if p.1 = k then some p.2 else dictGet d k

/-- `a.update(b)` -- Python dict update: insert every pair of `b` into `a`
in order, the incoming value replacing any existing value at the key. -/
def dictUpdate {α : Type} (a b : Dict α) : Dict α :=
  b.foldl (fun acc p => dictInsert acc p.1 p.2) a

theorem dictKeys_dictInsert {α : Type} (d : Dict α) (k : Nat) (v : α) (x : Nat) :
    x ∈ dictKeys (dictInsert d k v) ↔ x ∈ dictKeys d ∨ x = k := by
  induction d with
  | nil => simp [dictInsert, dictKeys, eq_comm]
  | cons p d ih =>
    by_cases hk : p.1 = k
    · subst hk
      simp only [dictInsert, if_pos]
      simp [dictKeys]
      tauto
    · simp only [dictInsert, if_neg hk]
      simp only [dictKeys, List.map_cons, List.mem_cons] at ih ⊢
      rw [show (List.map Prod.fst (dictInsert d k v) : List Nat)
            = dictKeys (dictInsert d k v) from rfl,
          show (List.map Prod.fst d : List Nat) = dictKeys d from rfl] at ih ⊢
      tauto

theorem dictGet_dictInsert_self {α : Type} (d : Dict α) (k : Nat) (v : α) :
    dictGet (dictInsert d k v) k = some v := by
  induction d with
  | nil => simp [dictInsert, dictGet]
  | cons p d ih =>
    by_cases hk : p.1 = k
    · simp [dictInsert, hk, dictGet]
    · simp [dictInsert, hk, dictGet, ih]

theorem dictGet_dictInsert_ne {α : Type} (d : Dict α) (k k' : Nat) (v : α)
    (hne : k' ≠ k) : dictGet (dictInsert d k v) k' = dictGet d k' := by
  have hkk : ¬ (k = k') := fun h => hne h.symm
  induction d with
  | nil => simp [dictInsert, dictGet, hkk]
  | cons p d ih =>
    by_cases hk : p.1 = k
    · have hpk : ¬ p.1 = k' := by rw [hk]; exact hkk
      simp [dictInsert, hk, dictGet, hpk, hkk]
    · by_cases hpk : p.1 = k'
      · simp [dictInsert, hk, dictGet, hpk, hne]
      · simp [dictInsert, hk, dictGet, hpk, hne, ih]

theorem dictGet_eq_none_iff {α : Type} (d : Dict α) (k : Nat) :
    dictGet d k = none ↔ k ∉ dictKeys d := by
  induction d with
  | nil => simp [dictGet, dictKeys]
  | cons p d ih =>
    by_cases hk : p.1 = k
    · simp [dictGet, hk, dictKeys, eq_comm]
    · simp only [dictGet, if_neg hk, dictKeys, List.map_cons, List.mem_cons]
      rw [show (List.map Prod.fst d : List Nat) = dictKeys d from rfl]
      rw [ih]
      constructor
      · rintro h (rfl | hx)
        · exact hk rfl
        · exact h hx
      · intro h hx
        exact h (Or.inr hx)

theorem dictGet_isSome_iff {α : Type} (d : Dict α) (k : Nat) :
    (dictGet d k).isSome = true ↔ k ∈ dictKeys d := by
  rw [← Decidable.not_iff_not, ← dictGet_eq_none_iff]
  cases dictGet d k <;> simp

/-! ### Batch slicing

`fetch_manager_squads_batch` walks `range(0, len(manager_ids), batch_size)`
and takes the slice `manager_ids[i:i+batch_size]` for each step.
`batchSlices bs l` is the list of those slices; the fuel argument
(`l.length`) only bounds the recursion depth. -/

def batchSlicesAux {α : Type} (bs : Nat) : Nat → List α → List (List α)
  | 0, _ => []
  | _, [] => []
  | fuel+1, l => l.take bs :: batchSlicesAux bs fuel (l.drop bs)

def batchSlices {α : Type} (bs : Nat) (l : List α) : List (List α) :=
  batchSlicesAux bs l.length l

theorem batchSlicesAux_flatten {α : Type} (bs : Nat) (hbs : 1 ≤ bs) :
    ∀ (fuel : Nat) (l : List α), l.length ≤ fuel →
      (batchSlicesAux bs fuel l).flatten = l := by
  intro fuel
  induction fuel with
  | zero =>
    intro l hl
    rw [Nat.le_zero] at hl
    rw [List.length_eq_zero] at hl
    subst hl
    rfl
  | succ fuel ih =>
    intro l hl
    match l with
    | [] => rfl
    | a :: l =>
      rw [show batchSlicesAux bs (fuel+1) (a :: l) =
            (a :: l).take bs :: batchSlicesAux bs fuel ((a :: l).drop bs) from rfl]
      rw [List.flatten_cons, ih]
      · exact List.take_append_drop bs (a :: l)
      · have hdrop : ((a :: l).drop bs).length = (a :: l).length - bs := by
          exact List.length_drop bs (a :: l)
        rw [hdrop]
        have : (a :: l).length ≤ fuel + 1 := hl
        omega

theorem batchSlices_flatten {α : Type} (bs : Nat) (hbs : 1 ≤ bs) (l : List α) :
    (batchSlices bs l).flatten = l :=
  batchSlicesAux_flatten bs hbs l.length l (Nat.le_refl _)

/-! ### Per-member fetch with retries

`get_manager_squad` returns the squad JSON on HTTP 200 and `None` on a
non-200 status or an exception (it catches its own exceptions).  Inside
`get_manager_squad_safe` each loop iteration therefore sees one of three
outcomes: a truthy payload, a falsy/empty response, or a raised exception
(the `except` branch).  The attempt-indexed oracle `fetch` supplies the
outcome of each call. -/

inductive FetchOutcome (α : Type) where
  | success (squad : α)
  | emptyResponse
  | raised
deriving DecidableEq

/-- Observable behaviour of one `get_manager_squad_safe` call: the returned
value, the `time.sleep` durations in order, and how many times
`get_manager_squad` was invoked. -/
structure SafeFetchRun (α : Type) where
  result : Option α
  sleeps : List ℚ
  attempts : Nat
deriving DecidableEq

def squadSafeGo {α : Type} (fetch : Nat → FetchOutcome α) (retry_delay : ℚ) :
    Nat → Nat → SafeFetchRun α
  | 0, _ => ⟨none, [], 0⟩
  | remaining+1, attempt =>
    match fetch attempt with
    | .success squad => ⟨some squad, [], 1⟩
    | .emptyResponse =>
      -- `if squad:` was falsy: `time.sleep(retry_delay * 0.5)`
      let rest := squadSafeGo fetch retry_delay remaining (attempt+1)
      ⟨rest.result, retry_delay * (1/2) :: rest.sleeps, rest.attempts + 1⟩
    | .raised =>
      -- `except Exception`: `time.sleep(retry_delay)`
      let rest := squadSafeGo fetch retry_delay remaining (attempt+1)
      ⟨rest.result, retry_delay :: rest.sleeps, rest.attempts + 1⟩

/-- `get_manager_squad_safe(manager_id, retry_delay, max_retries=3)`
(the second definition, lines 432-445, which shadows the first). -/
def get_manager_squad_safe {α : Type} (fetch : Nat → FetchOutcome α)
    (retry_delay : ℚ) (max_retries : Nat) : SafeFetchRun α :=
  squadSafeGo fetch retry_delay max_retries 0

/-- The pause the code takes after a failed attempt: `retry_delay * 0.5`
after an empty/falsy response, the full `retry_delay` after an exception. -/
def observedPause {α : Type} (retry_delay : ℚ) : FetchOutcome α → ℚ
  | FetchOutcome.emptyResponse => retry_delay * (1/2)
  | _ => retry_delay

/-! ### Batched fetch

`fetch_manager_squads_batch` slices `manager_ids` into batches, runs
`get_manager_squad_safe` for each id (`safe` below is that per-id result;
thread-pool completion order does not affect the final dict because each
key is written with its own fetch result), keeps only truthy squads, and
finally prints a completion line that divides by `len(manager_ids)` --
the `ZeroDivisionError` when the input list is empty. -/

inductive BatchError where
  | zeroDivisionError
deriving DecidableEq

def fetchLoopBody {α : Type} (safe : Nat → Option α) (acc : Dict α) (mid : Nat) : Dict α :=
  match safe mid with
  | some squad => dictInsert acc mid squad
  | none => acc

def fetch_manager_squads_batch {α : Type} (safe : Nat → Option α)
    (manager_ids : List Nat) (batch_size : Nat) : Except BatchError (Dict α) :=
  let batches := batchSlices batch_size manager_ids
  let all_squads := batches.foldl (fun acc batch => batch.foldl (fetchLoopBody safe) acc) []
  if manager_ids.length = 0 then
    Except.error BatchError.zeroDivisionError
  else
    let _completion_pct : ℚ := (all_squads.length : ℚ) / (manager_ids.length : ℚ) * 100
    Except.ok all_squads

theorem dictGet_fetchFold {α : Type} (safe : Nat → Option α) (ids : List Nat)
    (acc : Dict α) (k : Nat) :
    dictGet (ids.foldl (fetchLoopBody safe) acc) k =
      if k ∈ ids ∧ (safe k).isSome then safe k else dictGet acc k := by
  induction ids generalizing acc with
  | nil => simp
  | cons i ids ih =>
    rw [List.foldl_cons, ih]
    by_cases hmem : k ∈ ids ∧ (safe k).isSome
    · have : k ∈ i :: ids ∧ (safe k).isSome = true := ⟨List.mem_cons_of_mem i hmem.1, hmem.2⟩
      simp only [if_pos hmem, if_pos this]
    · rw [if_neg hmem]
      by_cases hik : i = k
      · subst hik
        match hsafe : safe i with
        | some v =>
          rw [fetchLoopBody, hsafe, dictGet_dictInsert_self]
          simp [hsafe]
        | none =>
          rw [fetchLoopBody, hsafe]
          simp [hsafe]
      · have hget : dictGet (fetchLoopBody safe acc i) k = dictGet acc k := by
          rw [fetchLoopBody]
          match safe i with
          | some v => exact dictGet_dictInsert_ne acc i k v (fun h => hik h.symm)
          | none => rfl
        rw [hget]
        have : ¬ (k ∈ i :: ids ∧ (safe k).isSome = true) := by
          rintro ⟨hk, hs⟩
          rcases List.mem_cons.mp hk with rfl | hk
          · exact hik rfl
          · exact hmem ⟨hk, hs⟩
        rw [if_neg this]

theorem dictGet_batchResult {α : Type} (safe : Nat → Option α)
    (manager_ids : List Nat) (batch_size : Nat) (hbs : 1 ≤ batch_size)
    (all_squads : Dict α)
    (hok : fetch_manager_squads_batch safe manager_ids batch_size = Except.ok all_squads)
    (k : Nat) :
    dictGet all_squads k =
      if k ∈ manager_ids ∧ (safe k).isSome then safe k else none := by
  rw [fetch_manager_squads_batch] at hok
  by_cases hempty : manager_ids.length = 0
  · rw [if_pos hempty] at hok
    exact absurd hok (by simp)
  · rw [if_neg hempty] at hok
    have hsq : all_squads =
        (batchSlices batch_size manager_ids).foldl
          (fun acc batch => batch.foldl (fetchLoopBody safe) acc) [] := by
      cases hok
      rfl
    rw [hsq, ← List.foldl_flatten, batchSlices_flatten batch_size hbs, dictGet_fetchFold]
    rfl

/-- After the batch fetch returns, `interactive_analysis` aborts the run
(`if not new_squads: print("❌ Failed to fetch manager squads"); return`)
exactly when the returned dict is falsy, i.e. empty. -/
def fetch_run_failed {α : Type} (new_squads : Dict α) : Bool :=
  new_squads.isEmpty

/-! ### Coverage reconciliation

`interactive_analysis` (lines 602-636) decides whether to fetch:
`cached_count = len(self.manager_squads)`, `total_count = len(manager_ids)`;
if `cached_count >= total_count * 0.95` it skips the fetch, otherwise it
fetches `[mid for mid in manager_ids if mid not in cached_manager_ids]`
(the interactive "Fetch missing managers?" prompt defaults to yes and is
modelled as accepted).  With no cached squads it fetches everything. -/

structure ReconcileResult where
  skip_fetch : Bool
  ids_to_fetch : List Nat
deriving DecidableEq

def reconcile (cached_ids required_ids : List Nat) : ReconcileResult :=
  if cached_ids.isEmpty then
    { skip_fetch := false, ids_to_fetch := required_ids }
  else if (cached_ids.length : ℚ) ≥ (required_ids.length : ℚ) * (95/100) then
    { skip_fetch := true, ids_to_fetch := [] }
  else
    { skip_fetch := false,
      ids_to_fetch := required_ids.filter (fun mid => ! cached_ids.contains mid) }

/-- The Coverage Reconciler as the specification words it: coverage is
`|cached_ids ∩ required_ids| / |required_ids|` (the intersection realised
as the required ids that are cached), `skip_fetch` iff coverage `≥ 0.95`,
otherwise fetch the gap `required_ids − cached_ids`.  Stated only to be
compared with `reconcile`, the embedding of the source. -/
def reconcileSpec (cached_ids required_ids : List Nat) : ReconcileResult :=
  if cached_ids.isEmpty then
    { skip_fetch := false, ids_to_fetch := required_ids }
  else if ((required_ids.filter (fun mid => cached_ids.contains mid)).length : ℚ)
      / (required_ids.length : ℚ) ≥ 95/100 then
    { skip_fetch := true, ids_to_fetch := [] }
  else
    { skip_fetch := false,
      ids_to_fetch := required_ids.filter (fun mid => ! cached_ids.contains mid) }

/-! ### Cache store

`save_manager_squads_cache` writes two artifacts per `(league_id, gameweek)`
key: the pickle blob (`manager_squads` plus `league_data`, the new format)
and the JSON metadata file.  `load_manager_squads_cache` requires both,
warns when the record is over an hour old (in interactive mode the user may
reject it; with `skip_prompt=True` it is always accepted), and decodes both
the new-format blob and the legacy blob that is a bare squads dict.  The
cache directory is modelled as a map from key to the pair of artifacts;
league data is modelled by its `standings['results']` entry list. -/

abbrev LeagueData := List Nat

inductive CacheBlob (α : Type) where
  | legacyBlob (manager_squads : Dict α)
  | newBlob (manager_squads : Dict α) (league_data : Option LeagueData)
deriving DecidableEq

structure CacheInfo where
  league_id : Nat
  gameweek : Nat
  manager_count : Nat
  cached_at : Nat
  total_managers_in_league : Nat
deriving DecidableEq

abbrev CacheDir (α : Type) := Nat × Nat → Option (CacheBlob α × CacheInfo)

def save_manager_squads_cache {α : Type} (dir : CacheDir α) (league_id gameweek : Nat)
    (manager_squads : Dict α) (league_data : Option LeagueData) (now : Nat) :
    CacheDir α :=
  fun key =>
    if key = (league_id, gameweek) then
      some (CacheBlob.newBlob manager_squads league_data,
        { league_id := league_id
          gameweek := gameweek
          manager_count := manager_squads.length
          cached_at := now
          total_managers_in_league :=
            match league_data with
            | some ld => ld.length
            | none => 0 })
    else dir key

def load_manager_squads_cache {α : Type} (dir : CacheDir α) (league_id gameweek : Nat)
    (skip_prompt : Bool) (user_accepts_stale : Bool) (now : Nat) :
    Option (Dict α × Option LeagueData) :=
  match dir (league_id, gameweek) with
  | none => none
  | some (blob, info) =>
    if 3600 < now - info.cached_at ∧ skip_prompt = false ∧ user_accepts_stale = false then
      none
    else
      match blob with
      | CacheBlob.newBlob squads league => some (squads, league)
      | CacheBlob.legacyBlob squads => some (squads, none)

/-! ### The cache write is not atomic

`save_manager_squads_cache` writes the pickle with
`with open(cache_file, 'wb') as f: pickle.dump(cache_data, f)`:
opening in mode `wb` truncates the file, and the payload is then written
sequentially.  `saveWriteStates pre payload` lists the file contents a
concurrent reader can observe: the pre-write contents, the truncated file,
and every prefix of the serialized payload up to the full record. -/

def saveWriteStates (pre : Option (List Nat)) (payload : List Nat) :
    List (Option (List Nat)) :=
  pre :: (List.range (payload.length + 1)).map (fun i => some (payload.take i))

/-! ### Combination query

`find_player_combinations` scans `manager_squads.items()`; a manager whose
payload lacks `picks` (or is not subscriptable) raises
`KeyError`/`TypeError` and is skipped by the `continue`; a well-formed
payload is modelled by the list of its `pick['element']` ids.  A manager
matches when `all(pid in squad_player_ids for pid in player_ids)`. -/

def find_player_combinations (manager_squads : Dict (Option (List Nat)))
    (player_ids : List Nat) : List Nat :=
  manager_squads.filterMap (fun p =>
    match p.2 with
    | some squad_player_ids =>
      if player_ids.all (fun pid => squad_player_ids.contains pid) then
        some p.1
      else
        none
    | none => none)

/-- The percentage reported for a combination
(`webapp/app.py` line 506 and `print_results`):
`matches / total scanned * 100`, `0` when nothing is loaded. -/
def combination_percentage (manager_squads : Dict (Option (List Nat)))
    (player_ids : List Nat) : ℚ :=
  if manager_squads.isEmpty then 0
  else ((find_player_combinations manager_squads player_ids).length : ℚ)
    / (manager_squads.length : ℚ) * 100

/-! ### General dictionary lemmas used by several theorems -/

theorem nodupKeys_eq {α : Type} (d : Dict α) (h : (dictKeys d).Nodup)
    (k : Nat) (v1 v2 : α) (h1 : (k, v1) ∈ d) (h2 : (k, v2) ∈ d) : v1 = v2 := by
  induction d with
  | nil => cases h1
  | cons p d ih =>
    rw [dictKeys, List.map_cons, List.nodup_cons] at h
    rcases List.mem_cons.mp h1 with he1 | hm1 <;>
      rcases List.mem_cons.mp h2 with he2 | hm2
    · exact (Prod.ext_iff.mp (he1.trans he2.symm)).2
    · subst he1
      exact absurd (List.mem_map_of_mem Prod.fst hm2) h.1
    · subst he2
      exact absurd (List.mem_map_of_mem Prod.fst hm1) h.1
    · exact ih h.2 hm1 hm2

theorem dict_eq_nil_of_get_none {α : Type} (d : Dict α)
    (h : ∀ k, dictGet d k = none) : d = [] := by
  match d with
  | [] => rfl
  | p :: d =>
    have := h p.1
    rw [dictGet, if_pos rfl] at this
    cases this

theorem dictGet_dictUpdate {α : Type} (b : Dict α)
    (hnd : (dictKeys b).Nodup) :
    ∀ (a : Dict α) (k : Nat),
      (k ∈ dictKeys (dictUpdate a b) ↔ k ∈ dictKeys a ∨ k ∈ dictKeys b) ∧
      (k ∈ dictKeys b → dictGet (dictUpdate a b) k = dictGet b k) ∧
      (k ∉ dictKeys b → dictGet (dictUpdate a b) k = dictGet a k) := by
  induction b with
  | nil =>
    intro a k
    refine ⟨by simp [dictUpdate, dictKeys], ?_, ?_⟩
    · intro h
      simp [dictKeys] at h
    · intro _
      rfl
  | cons p b ih =>
    intro a k
    have hstep : dictUpdate a (p :: b) = dictUpdate (dictInsert a p.1 p.2) b := rfl
    rw [dictKeys, List.map_cons, List.nodup_cons] at hnd
    have hp1 : p.1 ∉ dictKeys b := by simpa [dictKeys] using hnd.1
    have ih' := ih hnd.2 (dictInsert a p.1 p.2) k
    refine ⟨?_, ?_, ?_⟩
    · rw [hstep, ih'.1.trans]
      rw [dictKeys_dictInsert]
      simp [dictKeys]
      tauto
    · intro hk
      rw [show dictKeys (p :: b) = p.1 :: dictKeys b from rfl] at hk
      rcases List.mem_cons.mp hk with rfl | hk
      · rw [hstep, ih'.2.2 hp1, dictGet_dictInsert_self, dictGet, if_pos rfl]
      · have hkp : ¬ p.1 = k := fun hc => hp1 (hc ▸ hk)
        rw [hstep, ih'.2.1 hk, dictGet, if_neg hkp]
    · intro hk
      rw [show dictKeys (p :: b) = p.1 :: dictKeys b from rfl] at hk
      have hk1 : k ≠ p.1 := fun hc => hk (hc ▸ List.mem_cons_self _ _)
      have hk2 : k ∉ dictKeys b := fun hc => hk (List.mem_cons_of_mem _ hc)
      rw [hstep, ih'.2.2 hk2, dictGet_dictInsert_ne a p.1 k p.2 hk1]

theorem fetch_batch_ok {α : Type} (safe : Nat → Option α) (ids : List Nat) (bs : Nat)
    (hne : ids ≠ []) :
    fetch_manager_squads_batch safe ids bs
      = Except.ok ((batchSlices bs ids).foldl
          (fun acc batch => batch.foldl (fetchLoopBody safe) acc) []) := by
  have hlen : ¬ ids.length = 0 := fun h => hne (List.length_eq_zero.mp h)
  simp only [fetch_manager_squads_batch]
  rw [if_neg hlen]

/-! ## Claims -/

/-- C1, counterexample: with cached ids `{100, 200}` and required ids
`{1, 2}` the intersection is empty, so the claimed coverage
`|cached ∩ required| / |required| = 0` is below `0.95` and the claim
demands `skip_fetch = false` with `ids_to_fetch = {1, 2}`; the code
compares the raw cached count (`2 ≥ 2 * 0.95`) and skips the fetch. -/
theorem reconcile_intersection_counterexample :
    reconcile [100, 200] [1, 2] = { skip_fetch := true, ids_to_fetch := [] } ∧
    reconcileSpec [100, 200] [1, 2] = { skip_fetch := false, ids_to_fetch := [1, 2] } ∧
    reconcile [100, 200] [1, 2] ≠ reconcileSpec [100, 200] [1, 2] := by
  have h1 : reconcile [100, 200] [1, 2] = { skip_fetch := true, ids_to_fetch := [] } := by
    rw [reconcile]
    norm_num
  have h2 : reconcileSpec [100, 200] [1, 2]
      = { skip_fetch := false, ids_to_fetch := [1, 2] } := by
    rw [reconcileSpec]
    norm_num [List.filter]
  refine ⟨h1, h2, ?_⟩
  rw [h1, h2]
  simp

/-- C1 (amended): for a non-empty cached set the reconciliation computes
coverage as `|cached_ids| / |required_ids|` -- the raw cached count, with
no intersection taken; when that ratio is `≥ 0.95` (inclusive) it skips
the fetch with an empty fetch set, and otherwise it fetches exactly the
gap `required_ids − cached_ids` with `skip_fetch = false`. -/
theorem reconcile_uses_raw_cached_count (cached req : List Nat)
    (hc : cached ≠ []) (hr : req ≠ []) :
    ((cached.length : ℚ) / (req.length : ℚ) ≥ 95/100 →
      reconcile cached req = { skip_fetch := true, ids_to_fetch := [] }) ∧
    ((cached.length : ℚ) / (req.length : ℚ) < 95/100 →
      (reconcile cached req).skip_fetch = false ∧
      ∀ m, m ∈ (reconcile cached req).ids_to_fetch ↔ m ∈ req ∧ m ∉ cached) := by
  have hrl : (0 : ℚ) < (req.length : ℚ) := by
    have : 0 < req.length := List.length_pos.mpr hr
    exact_mod_cast this
  have hcov : ((cached.length : ℚ) / (req.length : ℚ) ≥ 95/100)
      ↔ ((cached.length : ℚ) ≥ (req.length : ℚ) * (95/100)) := by
    rw [ge_iff_le, le_div_iff₀ hrl, ge_iff_le, mul_comm]
  have hne : cached.isEmpty = false := by
    cases cached with
    | nil => exact absurd rfl hc
    | cons a l => rfl
  constructor
  · intro h
    rw [reconcile, hne]
    simp only [Bool.false_eq_true, if_false]
    rw [if_pos (hcov.mp h)]
  · intro h
    have hnot : ¬ ((cached.length : ℚ) ≥ (req.length : ℚ) * (95/100)) :=
      fun h2 => absurd (hcov.mpr h2) (not_le.mpr h)
    rw [reconcile, hne]
    simp only [Bool.false_eq_true, if_false]
    rw [if_neg hnot]
    refine ⟨rfl, fun m => ?_⟩
    simp [List.mem_filter]

/-- Witness for C1's amended theorem at cached `[1]`, required `[1, 2, 3]`:
coverage 1/3 is below the threshold, so the reconciliation does not skip
and fetches exactly the missing ids. -/
theorem reconcile_uses_raw_cached_count_witness :
    (reconcile [1] [1, 2, 3]).skip_fetch = false ∧
    ∀ m, m ∈ (reconcile [1] [1, 2, 3]).ids_to_fetch ↔ m ∈ [1, 2, 3] ∧ m ∉ [1] :=
  (reconcile_uses_raw_cached_count [1] [1, 2, 3] (by decide) (by decide)).2
    (by norm_num)

/-- C4: saving a cache record for `(league_id, gameweek)` and loading the
same key with the stale prompt skipped (the web-app `allow_stale` path)
succeeds and returns exactly the saved roster mapping (and the saved
league data). -/
theorem cache_round_trip (α : Type) (dir : CacheDir α) (league_id gameweek : Nat)
    (manager_squads : Dict α) (league_data : Option LeagueData)
    (save_time load_time : Nat) (user_accepts : Bool) :
    load_manager_squads_cache
        (save_manager_squads_cache dir league_id gameweek manager_squads league_data save_time)
        league_id gameweek true user_accepts load_time
      = some (manager_squads, league_data) := by
  rw [load_manager_squads_cache]
  simp [save_manager_squads_cache]

/-- C9: a record persisted in the legacy format (the pickle is the bare
squads dict, no league-data field) loads successfully, yielding the full
roster mapping and an absent league snapshot. -/
theorem legacy_cache_load (α : Type) (dir : CacheDir α) (league_id gameweek : Nat)
    (squads : Dict α) (info : CacheInfo) (user_accepts : Bool) (now : Nat) :
    load_manager_squads_cache
        (fun key => if key = (league_id, gameweek)
          then some (CacheBlob.legacyBlob squads, info) else dir key)
        league_id gameweek true user_accepts now
      = some (squads, none) := by
  rw [load_manager_squads_cache]
  simp

/-- C2, counterexample: a member whose fetch returns an empty/null response
on every attempt (retry_delay = 1) sleeps `retry_delay * 0.5` after every
one of its three attempts -- three equal pauses, not the claimed
escalating schedule (`retry_delay × 0.5` before the first retry, the full
`retry_delay` before subsequent ones, i.e. `[0.5, 1]`). -/
theorem retry_pause_counterexample :
    (get_manager_squad_safe (fun _ => (FetchOutcome.emptyResponse : FetchOutcome Nat)) 1 3).sleeps
      = [1/2, 1/2, 1/2] ∧
    (get_manager_squad_safe (fun _ => (FetchOutcome.emptyResponse : FetchOutcome Nat)) 1 3).sleeps
      ≠ [1 * (1/2), 1] := by
  have h : (get_manager_squad_safe
        (fun _ => (FetchOutcome.emptyResponse : FetchOutcome Nat)) 1 3).sleeps
      = [1 * (1/2), 1 * (1/2), 1 * (1/2)] := rfl
  rw [h]
  norm_num

/-- C2 (amended): the fetch retries up to the fixed ceiling of 3 attempts;
after each failed attempt (including the last) it pauses
`retry_delay × 0.5` when the response was empty/null and the full
`retry_delay` when the fetch raised -- the pause depends on the failure
kind, not on the attempt index.  After exhausting retries the member
returns `None`, is excluded from the batch's result mapping, and no
exception propagates; the run still succeeds if at least one other
requested member succeeded. -/
theorem retry_exhaustion_behaviour :
    (∀ (α : Type) (fetch : Nat → FetchOutcome α) (rd : ℚ),
      (∀ i, fetch i = FetchOutcome.emptyResponse ∨ fetch i = FetchOutcome.raised) →
      get_manager_squad_safe fetch rd 3 =
        { result := none,
          sleeps := [observedPause rd (fetch 0), observedPause rd (fetch 1),
                     observedPause rd (fetch 2)],
          attempts := 3 }) ∧
    (∀ (α : Type) (safe : Nat → Option α) (ids : List Nat) (bs : Nat) (sq : Dict α),
      1 ≤ bs → fetch_manager_squads_batch safe ids bs = Except.ok sq →
      (∀ m, safe m = none → m ∉ dictKeys sq) ∧
      (∀ other, other ∈ ids → (safe other).isSome = true → fetch_run_failed sq = false)) := by
  constructor
  · intro α fetch rd h
    rcases h 0 with h0 | h0 <;> rcases h 1 with h1 | h1 <;> rcases h 2 with h2 | h2 <;>
      simp [get_manager_squad_safe, squadSafeGo, h0, h1, h2, observedPause]
  · intro α safe ids bs sq hbs hok
    constructor
    · intro m hm
      have hget := dictGet_batchResult safe ids bs hbs sq hok m
      rw [hm] at hget
      simp only [Option.isSome_none, Bool.false_eq_true, and_false, if_false] at hget
      exact (dictGet_eq_none_iff sq m).mp hget
    · intro other hother hsome
      have hget := dictGet_batchResult safe ids bs hbs sq hok other
      rw [if_pos ⟨hother, hsome⟩] at hget
      rw [fetch_run_failed]
      cases sq with
      | nil =>
        rw [show dictGet ([] : Dict α) other = none from rfl] at hget
        rw [← hget] at hsome
        simp at hsome
      | cons p d => rfl

/-- Witness for C2's amended theorem: an always-raising member with
retry_delay 2 pauses the full delay three times and returns nothing, and
in a batch over ids `[4, 5]` where only 4 succeeds, 5 is excluded from the
result while the run is not a failure. -/
theorem retry_exhaustion_behaviour_witness :
    (get_manager_squad_safe (fun _ => (FetchOutcome.raised : FetchOutcome Nat)) 2 3 =
      { result := none, sleeps := [2, 2, 2], attempts := 3 }) ∧
    (5 ∉ dictKeys ([(4, 0)] : Dict Nat)) ∧
    fetch_run_failed ([(4, 0)] : Dict Nat) = false := by
  refine ⟨?_, ?_, ?_⟩
  · have h := retry_exhaustion_behaviour.1 Nat (fun _ => FetchOutcome.raised) 2
      (fun i => Or.inr rfl)
    simpa [observedPause] using h
  · exact (retry_exhaustion_behaviour.2 Nat (fun m => if m = 5 then none else some 0)
      [4, 5] 1 [(4, 0)] (by decide) (by rfl)).1 5 (by rfl)
  · exact (retry_exhaustion_behaviour.2 Nat (fun m => if m = 5 then none else some 0)
      [4, 5] 1 [(4, 0)] (by decide) (by rfl)).2 4 (by decide) (by rfl)

/-- C3: for every non-empty manager id list the batch fetch returns
normally, and the returned mapping's key set is a subset of the requested
ids -- no extraneous keys appear. -/
theorem batch_keys_subset (α : Type) (safe : Nat → Option α) (ids : List Nat)
    (bs : Nat) (hbs : 1 ≤ bs) (hne : ids ≠ []) :
    ∃ sq, fetch_manager_squads_batch safe ids bs = Except.ok sq ∧
      ∀ k, k ∈ dictKeys sq → k ∈ ids := by
  refine ⟨_, fetch_batch_ok safe ids bs hne, ?_⟩
  intro k hk
  by_contra hkids
  have hget := dictGet_batchResult safe ids bs hbs _ (fetch_batch_ok safe ids bs hne) k
  rw [if_neg (fun hc => hkids hc.1)] at hget
  exact ((dictGet_eq_none_iff _ k).mp hget) hk

/-- Witness for C3 with ids `[7, 8]` where only 7 succeeds. -/
theorem batch_keys_subset_witness :
    ∃ sq, fetch_manager_squads_batch (fun m => if m = 7 then some 1 else none) [7, 8] 200
        = Except.ok sq ∧ ∀ k, k ∈ dictKeys sq → k ∈ [7, 8] :=
  batch_keys_subset Nat (fun m => if m = 7 then some 1 else none) [7, 8] 200
    (by decide) (by decide)

/-- C7: for a non-empty requested id set, per-member failures accumulate
without aborting (the batch call always returns a mapping), and the run
is reported failed by the caller exactly when zero requested members
succeeded. -/
theorem fetch_exhausted_iff_zero_successes (α : Type) (safe : Nat → Option α)
    (ids : List Nat) (bs : Nat) (hbs : 1 ≤ bs) (hne : ids ≠ []) :
    ∃ sq, fetch_manager_squads_batch safe ids bs = Except.ok sq ∧
      (fetch_run_failed sq = true ↔ ∀ m ∈ ids, safe m = none) := by
  refine ⟨_, fetch_batch_ok safe ids bs hne, ?_⟩
  have hok := fetch_batch_ok safe ids bs hne
  constructor
  · intro hfail m hm
    have hnil : (batchSlices bs ids).foldl
        (fun acc batch => batch.foldl (fetchLoopBody safe) acc) ([] : Dict α) = [] := by
      rw [fetch_run_failed] at hfail
      exact List.isEmpty_iff.mp hfail
    by_contra hne2
    have hsome : (safe m).isSome = true := Option.ne_none_iff_isSome.mp hne2
    have hget := dictGet_batchResult safe ids bs hbs _ hok m
    rw [if_pos ⟨hm, hsome⟩, hnil] at hget
    rw [show dictGet ([] : Dict α) m = none from rfl] at hget
    rw [← hget] at hsome
    simp at hsome
  · intro hall
    have hnil : (batchSlices bs ids).foldl
        (fun acc batch => batch.foldl (fetchLoopBody safe) acc) ([] : Dict α) = [] := by
      refine dict_eq_nil_of_get_none _ (fun k => ?_)
      have hget := dictGet_batchResult safe ids bs hbs _ hok k
      by_cases hc : k ∈ ids ∧ (safe k).isSome = true
      · rw [hall k hc.1] at hc
        simp at hc
      · rwa [if_neg hc] at hget
    rw [fetch_run_failed, hnil]
    rfl

/-- Witness for C7: with every fetch failing over ids `[3, 4]`, the batch
returns an (empty) mapping and the run is reported failed. -/
theorem fetch_exhausted_iff_zero_successes_witness :
    ∃ sq, fetch_manager_squads_batch (fun _ => (none : Option Nat)) [3, 4] 2 = Except.ok sq ∧
      (fetch_run_failed sq = true ↔ ∀ m ∈ [3, 4], (fun _ => (none : Option Nat)) m = none) :=
  fetch_exhausted_iff_zero_successes Nat (fun _ => none) [3, 4] 2 (by decide) (by decide)

/-- C10: the batch fetch applied to an empty manager_ids list raises
`ZeroDivisionError` in its final completion-rate report instead of
returning a mapping; with a non-empty list it returns normally. -/
theorem batch_empty_input_divides_by_zero (α : Type) (safe : Nat → Option α) (bs : Nat) :
    fetch_manager_squads_batch safe [] bs = Except.error BatchError.zeroDivisionError ∧
    ∀ ids, ids ≠ [] → ∃ sq, fetch_manager_squads_batch safe ids bs = Except.ok sq := by
  constructor
  · rfl
  · intro ids hne
    exact ⟨_, fetch_batch_ok safe ids bs hne⟩

/-- Witness for C10 at a concrete fetcher: empty input errors, `[9]` returns. -/
theorem batch_empty_input_divides_by_zero_witness :
    fetch_manager_squads_batch (fun _ => (some 0 : Option Nat)) ([] : List Nat) 200
        = Except.error BatchError.zeroDivisionError ∧
    ∃ sq, fetch_manager_squads_batch (fun _ => (some 0 : Option Nat)) [9] 200 = Except.ok sq :=
  ⟨(batch_empty_input_divides_by_zero Nat (fun _ => some 0) 200).1,
   (batch_empty_input_divides_by_zero Nat (fun _ => some 0) 200).2 [9] (by decide)⟩

/-- C5: merging a freshly fetched mapping `b` into an existing mapping `a`
(`self.manager_squads.update(new_squads)`) yields the union keyed by
member id, and for every member id present in both the merged mapping
holds `b`'s freshly fetched payload; ids only in `a` keep `a`'s payload. -/
theorem merge_union_fresh_wins (α : Type) (a b : Dict α)
    (hnd : (dictKeys b).Nodup) (k : Nat) :
    (k ∈ dictKeys (dictUpdate a b) ↔ k ∈ dictKeys a ∨ k ∈ dictKeys b) ∧
    (k ∈ dictKeys b → dictGet (dictUpdate a b) k = dictGet b k) ∧
    (k ∉ dictKeys b → dictGet (dictUpdate a b) k = dictGet a k) :=
  dictGet_dictUpdate b hnd a k

/-- Witness for C5: `a` and `b` share member id 42 with different payloads
and the merged mapping holds `b`'s payload, 9. -/
theorem merge_union_fresh_wins_witness :
    dictGet (dictUpdate [(42, 1), (7, 2)] [(42, 9)]) 42 = dictGet [(42, 9)] 42 ∧
    dictGet ([(42, 9)] : Dict Nat) 42 = some 9 :=
  ⟨(merge_union_fresh_wins Nat [(42, 1), (7, 2)] [(42, 9)] (by decide) 42).2.1 (by decide),
   by decide⟩

/-- C6: a manager matches iff its squad's player-id set is a superset of
the target player-id set (order irrelevant, duplicates ignored); managers
with malformed payloads are skipped, never matched and never an error; on
the documented example mapping the matches are managers 1 and 3 and the
reported percentage is 200/3, displayed as 66.67%. -/
theorem combination_query_correct :
    (∀ (squads : Dict (Option (List Nat))) (target : List Nat) (mid : Nat)
        (picks : List Nat), (dictKeys squads).Nodup → (mid, some picks) ∈ squads →
        (mid ∈ find_player_combinations squads target ↔
          target.toFinset ⊆ picks.toFinset)) ∧
    (∀ (squads : Dict (Option (List Nat))) (target : List Nat) (mid : Nat),
        (dictKeys squads).Nodup → (mid, (none : Option (List Nat))) ∈ squads →
        mid ∉ find_player_combinations squads target) ∧
    (find_player_combinations
        [(1, some [10, 20, 30]), (2, some [10, 20]), (3, some [10, 20, 30, 40])]
        [10, 20, 30] = [1, 3]) ∧
    (combination_percentage
        [(1, some [10, 20, 30]), (2, some [10, 20]), (3, some [10, 20, 30, 40])]
        [10, 20, 30] = 200/3) ∧
    ((⌊combination_percentage
        [(1, some [10, 20, 30]), (2, some [10, 20]), (3, some [10, 20, 30, 40])]
        [10, 20, 30] * 100 + 1/2⌋ : ℤ) = 6667) := by
  have hsubset : ∀ (target picks : List Nat),
      (target.all (fun pid => picks.contains pid) = true)
        ↔ target.toFinset ⊆ picks.toFinset := by
    intro target picks
    rw [List.all_eq_true]
    constructor
    · intro h x hx
      rw [List.mem_toFinset] at hx ⊢
      simpa using h x hx
    · intro h x hx
      have := h (List.mem_toFinset.mpr hx)
      rw [List.mem_toFinset] at this
      simpa using this
  have hmatch : ∀ (squads : Dict (Option (List Nat))) (target : List Nat) (mid : Nat)
      (picks : List Nat), (dictKeys squads).Nodup → (mid, some picks) ∈ squads →
      (mid ∈ find_player_combinations squads target ↔
        target.toFinset ⊆ picks.toFinset) := by
    intro squads target mid picks hnd hmem
    rw [find_player_combinations, List.mem_filterMap]
    constructor
    · rintro ⟨⟨k, v⟩, hpmem, hf⟩
      match v with
      | none => cases hf
      | some ids =>
        have hf2 : (if (target.all fun pid => ids.contains pid) = true
            then some k else none) = some mid := hf
        by_cases hcond : target.all (fun pid => ids.contains pid) = true
        · rw [if_pos hcond] at hf2
          have hk : k = mid := by cases hf2; rfl
          subst hk
          have hv : (some ids : Option (List Nat)) = some picks :=
            nodupKeys_eq squads hnd k _ _ hpmem hmem
          cases hv
          exact (hsubset target _).mp hcond
        · rw [if_neg hcond] at hf2
          cases hf2
    · intro hsub
      refine ⟨(mid, some picks), hmem, ?_⟩
      show (if (target.all fun pid => picks.contains pid) = true
          then some mid else none) = some mid
      rw [if_pos ((hsubset target picks).mpr hsub)]
  refine ⟨hmatch, ?_, ?_, ?_, ?_⟩
  · intro squads target mid hnd hmem
    rw [find_player_combinations, List.mem_filterMap]
    rintro ⟨⟨k, v⟩, hpmem, hf⟩
    match v with
    | none => cases hf
    | some ids =>
      have hf2 : (if (target.all fun pid => ids.contains pid) = true
          then some k else none) = some mid := hf
      by_cases hcond : target.all (fun pid => ids.contains pid) = true
      · rw [if_pos hcond] at hf2
        have hk : k = mid := by cases hf2; rfl
        subst hk
        have hv : (some ids : Option (List Nat)) = none :=
          nodupKeys_eq squads hnd k _ _ hpmem hmem
        cases hv
      · rw [if_neg hcond] at hf2
        cases hf2
  · decide
  · have hc : find_player_combinations
        [(1, some [10, 20, 30]), (2, some [10, 20]), (3, some [10, 20, 30, 40])]
        [10, 20, 30] = [1, 3] := by decide
    rw [combination_percentage, hc]
    norm_num [List.isEmpty]
  · have hc : find_player_combinations
        [(1, some [10, 20, 30]), (2, some [10, 20]), (3, some [10, 20, 30, 40])]
        [10, 20, 30] = [1, 3] := by decide
    rw [combination_percentage, hc]
    norm_num [List.isEmpty, Int.floor_eq_iff]

/-- Witness for C6: manager 1 matches the target `[30, 10]` (a subset of
its picks, order irrelevant) and a malformed manager 4 never matches. -/
theorem combination_query_correct_witness :
    (1 ∈ find_player_combinations
        [(1, some [10, 20, 30]), (2, some [10, 20]), (3, some [10, 20, 30, 40])]
        [30, 10] ↔ ([30, 10] : List Nat).toFinset ⊆ ([10, 20, 30] : List Nat).toFinset) ∧
    4 ∉ find_player_combinations [(4, none), (5, some [1])] [1] :=
  ⟨combination_query_correct.1
      [(1, some [10, 20, 30]), (2, some [10, 20]), (3, some [10, 20, 30, 40])]
      [30, 10] 1 [10, 20, 30] (by decide) (by decide),
   combination_query_correct.2.1 [(4, none), (5, some [1])] [1] 4 (by decide) (by decide)⟩

/-- C8, counterexample: during a save that overwrites a record whose file
held `[7]` with a record serialized as `[1, 2, 3]`, a concurrent reader
can observe the truncated file (`some []`), which is neither the complete
pre-write state nor the complete fully-written record -- the write is a
plain `open(file, 'wb')` followed by `pickle.dump`, not write-then-rename. -/
theorem save_partial_state_counterexample :
    ¬ (∀ s ∈ saveWriteStates (some [7]) [1, 2, 3],
        s = some [7] ∨ s = some [1, 2, 3]) := by
  decide

/-- C8 (amended): the cache save writes in place -- `open(cache_file,'wb')`
truncates and `pickle.dump` then writes sequentially -- so a reader
concurrent with a save can observe the truncated empty file (and any
prefix of the record); only the final observable state is the fully
written record, and the state before the save is the pre-write contents. -/
theorem save_truncates_then_writes (pre : Option (List Nat)) (payload : List Nat) :
    some [] ∈ saveWriteStates pre payload ∧
    (saveWriteStates pre payload).head? = some pre ∧
    (saveWriteStates pre payload).getLast? = some (some payload) := by
  refine ⟨?_, rfl, ?_⟩
  · rw [saveWriteStates]
    refine List.mem_cons_of_mem _ ?_
    refine List.mem_map.mpr ⟨0, ?_, by simp⟩
    simp
  · rw [saveWriteStates, List.range_succ, List.map_append]
    rw [show (pre :: (List.map (fun i => some (payload.take i)) (List.range payload.length)
          ++ List.map (fun i => some (payload.take i)) [payload.length]))
        = (pre :: List.map (fun i => some (payload.take i)) (List.range payload.length))
          ++ List.map (fun i => some (payload.take i)) [payload.length] from rfl]
    rw [show List.map (fun i => some (payload.take i)) [payload.length]
        = [some (payload.take payload.length)] from rfl]
    rw [List.getLast?_concat]
    simp

end FPL
